import Mathlib

/-
  Verification development for the memcachetest client library core
  (src/libmemc.c).

  Shallow embedding: each C function relevant to the statements below is
  translated into an executable Lean definition.  Machine integers are
  modelled as Nat with explicit reduction modulo 2 ^ w wherever the C code
  can overflow or truncate.  Byte buffers are List Nat (each element one
  byte).  The blocking socket loops are driven by an explicit schedule of
  transport events (interrupted call, hard error, bytes transferred); a
  loop that would still be running when the schedule is exhausted reports
  a distinct pending outcome, so nontermination is observable.
-/

/-- Bytes of a Lean string literal, used to write concrete wire data. -/
def strBytes (s : String) : List Nat := s.toList.map Char.toNat

/-- Connection state of one `struct Server`: `sock != -1` is modelled as
`connected`, and the sticky `errmsg` pointer as an optional string.  The
address, peername and scratch buffer are carried separately where needed. -/
structure Conn where
  connected : Bool
  errmsg : Option String
deriving DecidableEq, Repr

/-- State of a connection after `server_disconnect` plus `errmsg = strdup(msg)`,
the combination every hard-error path of libmemc.c performs. -/
def failConn (msg : String) : Conn :=
  { connected := false, errmsg := some msg }

/-- A freshly connected server with no recorded error. -/
def conn0 : Conn :=
  { connected := true, errmsg := none }

/-- Caller-supplied `struct Item`.  The struct itself is declared in
libmemc.h (not part of src/); the field list follows the data model of the
specification: key with explicit length, raw data buffer with a size,
32-bit flags, expiration time, 64-bit cas token.  `data = none` models a
NULL data pointer; when `data = some d`, `d` is the buffer contents (its
length is the allocated capacity, which libmemc.c tracks via `size`). -/
structure Item where
  key : List Nat
  keylen : Nat
  flags : Nat
  exptime : Nat
  data : Option (List Nat)
  size : Nat
  cas_id : Nat
deriving DecidableEq, Repr

/-- A concrete item used to instantiate theorems. -/
def item0 : Item :=
  { key := strBytes "k", keylen := 1, flags := 0, exptime := 0,
    data := none, size := 0, cas_id := 0 }

/-- `enum StoreCommand {add, set, replace}` from libmemc.c. -/
inductive StoreCommand where
  | add
  | set
  | replace
deriving DecidableEq, Repr

/-- Value of a C `char` converted to `uint32_t`: `char` is signed on the
reference platform, so bytes at or above 128 become large 32-bit values by
sign extension.  `b` is a byte (below 256). -/
def schar32 (b : Nat) : Nat :=
  if b % 256 < 128 then b % 256 else 2 ^ 32 - 256 + b % 256

/-- The `for (ret = *key; *key != 0; ++key) ret = (ret << 4) + *key;` loop
of `simplehash` (libmemc.c:206-208): starting from the accumulator, fold
over the bytes up to (but not including) the first NUL; `(ret << 4) + *key`
is 32-bit arithmetic. -/
def hashLoop : Nat → List Nat → Nat
  | ret, [] => ret
  | ret, b :: rest =>
    if b = 0 then ret else hashLoop ((ret * 16 + schar32 b) % 2 ^ 32) rest

/-- `simplehash` (libmemc.c:201-210).  A NULL key (`none`) hashes to 0.
Otherwise the accumulator is initialised with the first byte (`ret = *key`)
and the loop runs over the bytes of the NUL-terminated string; the list
models the memory the key pointer designates. -/
def simplehash : Option (List Nat) → Nat
  | none => 0
  | some bs => hashLoop (schar32 (bs.headD 0)) bs

/-- `get_server` (libmemc.c:212-221), returning the selected server index
instead of the pointer: one registered server short-circuits to index 0,
more than one reduces the hash modulo the server count, zero servers yield
`none` (NULL). -/
def get_server (no_servers : Nat) (key : Option (List Nat)) : Option Nat :=
  if no_servers = 1 then some 0
  else if 0 < no_servers then some (simplehash key % no_servers)
  else none

/-- Routing as invoked by `libmemc_get`/`libmemc_store`: only `item->key`
is passed to `get_server`; the declared `keylen` does not participate. -/
def get_server_for_item (no_servers : Nat) (it : Item) : Option Nat :=
  get_server no_servers (some it.key)

/-- One iteration bundle of `swap64` (libmemc.c:429-444, the non-sparc
branch): eight rounds of `rv = (rv << 8) | (in & 0xff); in >>= 8;`.  The
`int64_t` bit patterns are modelled as Nat below 2 ^ 64; `|` on the shifted
accumulator is addition because the low byte is clear, and the arithmetic
right shift of `in` only affects bytes beyond the eight that are read. -/
def swap64Loop : Nat → Nat → Nat → Nat
  | 0, _, rv => rv
  | i + 1, inp, rv => swap64Loop i (inp / 256) ((rv * 256 + inp % 256) % 2 ^ 64)

/-- `swap64` on a little-endian host. -/
def swap64 (x : Nat) : Nat := swap64Loop 8 x 0

/-- The eight bytes of a 64-bit value, least significant first: the memory
order of the value on the little-endian host. -/
def bytesLE (x : Nat) : List Nat :=
  [x % 256, x / 2 ^ 8 % 256, x / 2 ^ 16 % 256, x / 2 ^ 24 % 256,
   x / 2 ^ 32 % 256, x / 2 ^ 40 % 256, x / 2 ^ 48 % 256, x / 2 ^ 56 % 256]

/-- `htons` on the little-endian host: the two bytes of a 16-bit value
exchanged.  Arguments are already reduced below 2 ^ 16 at call sites, as
the C type system does via the `uint16_t` parameter. -/
def htons (x : Nat) : Nat := x % 256 * 256 + x / 256 % 256

/-- `htonl` on the little-endian host: the four bytes of a 32-bit value
reversed.  Arguments are reduced below 2 ^ 32 at call sites. -/
def htonl (x : Nat) : Nat :=
  x % 256 * 2 ^ 24 + x / 2 ^ 8 % 256 * 2 ^ 16 + x / 2 ^ 16 % 256 * 2 ^ 8 +
    x / 2 ^ 24 % 256

/-- `ntohl` is the same byte reversal as `htonl` on this host. -/
def ntohl (x : Nat) : Nat := htonl x

/-- Constants from memcached protocol_binary.h (external dependency). -/
def PROTOCOL_BINARY_REQ : Nat := 0x80

def PROTOCOL_BINARY_CMD_SET : Nat := 0x01

def PROTOCOL_BINARY_CMD_ADD : Nat := 0x02

def PROTOCOL_BINARY_CMD_REPLACE : Nat := 0x03

/-- The `protocol_binary_request_set` frame as filled in by `binary_store`
(libmemc.c:551-582), field by field, together with the key and payload
ranges handed to `server_sendv`.  Multi-byte header fields hold the value
the C code stores into them (after `htons`/`htonl`/`swap64` where the code
applies them). -/
structure BinStoreRequest where
  magic : Nat
  opcode : Nat
  keylen : Nat
  extlen : Nat
  datatype : Nat
  reserved : Nat
  bodylen : Nat
  correlation : Nat
  cas : Nat
  flags : Nat
  expiration : Nat
  key : List Nat
  payload : List Nat
deriving DecidableEq, Repr

/-- Request construction of `binary_store` (libmemc.c:551-584). -/
def binary_store_request (cmd : StoreCommand) (item : Item) : BinStoreRequest :=
  let kl := item.keylen % 2 ^ 16
  { magic := PROTOCOL_BINARY_REQ
    opcode := match cmd with
      | StoreCommand.add => PROTOCOL_BINARY_CMD_ADD
      | StoreCommand.set => PROTOCOL_BINARY_CMD_SET
      | StoreCommand.replace => PROTOCOL_BINARY_CMD_REPLACE
    keylen := htons kl
    extlen := 8
    datatype := 0
    reserved := 0
    bodylen := htonl ((kl + item.size + 8) % 2 ^ 32)
    correlation := 0
    cas := swap64 (item.cas_id % 2 ^ 64)
    flags := 0
    expiration := htonl (item.exptime % 2 ^ 32)
    key := item.key.take kl
    payload := (item.data.getD []).take item.size }

/-- Success path of `binary_get` response handling (libmemc.c:481-526):
free the Item buffer when the payload is larger than the current capacity,
allocate when there is no buffer, read the payload, and set `cas_id` by
`swap64` of the raw cas field of the response header.  `payload` is the
response body after the extra fields; allocation is modelled as
succeeding. -/
def binary_get_success (item : Item) (extlen bodylen cas : Nat)
    (payload : List Nat) : Item :=
  let psize := bodylen - extlen
  let kept := match item.data with
    | some d => if psize > item.size then none else some d
    | none => none
  match kept with
  | none =>
    { item with
      size := psize
      data := some (payload.take psize)
      cas_id := swap64 (cas % 2 ^ 64) }
  | some _ =>
    { item with
      data := some (payload.take item.size)
      cas_id := swap64 (cas % 2 ^ 64) }

/-- Outcome of the `binary_store` response decode: the connection state
afterwards, the C return value, and how many body bytes were read and
discarded. -/
structure StoreDecodeResult where
  conn : Conn
  ret : Int
  drained : Nat
deriving DecidableEq, Repr

/-- Response handling of `binary_store` (libmemc.c:595-613).  `status` and
`bodylen` are the raw header fields (`bodylen` in network order; the zero
test the C code performs on it is byte-order independent, and `ntohl` is
applied for the drain length exactly as in the code).  `allocOk` models
whether the `malloc` for the drain buffer succeeds. -/
def binary_store_decode (c : Conn) (status bodylen : Nat) (allocOk : Bool) :
    StoreDecodeResult :=
  if status = 0 ∧ bodylen ≠ 0 then
    { conn := failConn "Unexpected data returned\n", ret := -1, drained := 0 }
  else if bodylen ≠ 0 then
    if allocOk then
      { conn := c, ret := if status = 0 then 0 else -1, drained := ntohl bodylen }
    else
      { conn := failConn "failed to allocate memory\n", ret := -1, drained := 0 }
  else
    { conn := c, ret := if status = 0 then 0 else -1, drained := 0 }

/-- One transport event observed by a blocking I/O call: `eintr` is a
call that failed with the retryable EINTR condition, `err` a call that
failed with any other errno (carrying the strerror text), and `bytes` a
call that transferred the given bytes (a zero-length transfer models an
orderly peer close on the receive side). -/
inductive IOEv where
  | eintr
  | err (msg : String)
  | bytes (bs : List Nat)
deriving DecidableEq, Repr

/-- Outcome of one of the blocking I/O loops: normal return carrying the
final offset, the -1 error return, or still running when the event
schedule ran out. -/
inductive LoopRes where
  | ok (n : Nat)
  | fail
  | pending
deriving DecidableEq, Repr

/-- `server_send` (libmemc.c:321-339): loop sending the unsent suffix
until `offset` reaches `size`; EINTR retries bare; any other error records
the message, disconnects and returns -1.  The do-while body runs once per
schedule event, and the loop condition is re-checked after each body. -/
def server_send (size : Nat) : Conn → Nat → List IOEv → Conn × LoopRes
  | c, _, [] => (c, LoopRes.pending)
  | c, off, ev :: evs =>
    match ev with
    | IOEv.err m =>
      (failConn ("Failed to send data to server: " ++ m), LoopRes.fail)
    | IOEv.eintr =>
      if off < size then server_send size c off evs else (c, LoopRes.ok off)
    | IOEv.bytes bs =>
      let off2 := off + bs.length
      if off2 < size then server_send size c off2 evs else (c, LoopRes.ok off2)

/-- `server_receive` (libmemc.c:395-425): loop until `size` bytes have
been collected, or, in line mode, until a received chunk contains the
carriage return.  EINTR retries bare; a hard error records the message,
disconnects and returns -1; leaving the loop in line mode without having
seen the terminator (buffer capacity exhausted) records "Protocol error",
disconnects and returns -1.  A zero-length transfer adds nothing to the
offset yet is not treated as an error. -/
def server_receive (size : Nat) (line : Bool) :
    Conn → Nat → Bool → List IOEv → Conn × LoopRes
  | c, _, _, [] => (c, LoopRes.pending)
  | c, off, stop, ev :: evs =>
    match ev with
    | IOEv.err m =>
      (failConn ("Failed to receive data from server: " ++ m), LoopRes.fail)
    | IOEv.eintr =>
      if off < size ∧ stop = false then server_receive size line c off stop evs
      else if line = true ∧ stop = false then
        (failConn "Protocol error", LoopRes.fail)
      else (c, LoopRes.ok off)
    | IOEv.bytes bs =>
      let stop2 := if line = true ∧ bs.contains 13 then true else stop
      let off2 := off + bs.length
      if off2 < size ∧ stop2 = false then
        server_receive size line c off2 stop2 evs
      else if line = true ∧ stop2 = false then
        (failConn "Protocol error", LoopRes.fail)
      else (c, LoopRes.ok off2)

/-- Total byte count of a gather list, `size` in `server_sendv`. -/
def totalLen (iov : List (List Nat)) : Nat := (iov.map List.length).sum

/-- Concatenation of a gather list: the logical message `server_sendv`
must deliver. -/
def flattenIov (iov : List (List Nat)) : List Nat := iov.flatten

/-- The iovec-adjustment loop of `server_sendv` (libmemc.c:372-388) after
a partial `writev` that accepted `sent` bytes: buffers wholly consumed are
zeroed in place and the first partially consumed buffer advances its base
pointer past the accepted bytes.  Each buffer is modelled by its remaining
byte content. -/
def advanceIov : List (List Nat) → Nat → List (List Nat)
  | [], _ => []
  | b :: rest, sent =>
    if b.length < sent then [] :: advanceIov rest (sent - b.length)
    else b.drop sent :: rest

/-- The retry loop of `server_sendv` (libmemc.c:341-393) driven by a
schedule of `writev` outcomes: `none` is an EINTR failure (bare retry),
`some k` a call that accepted `k` bytes of the currently remaining
message (capped by what remains).  The result is the list of bytes the
transport accepted, in order, paired with `true` when the function
returned 0 within the schedule and `false` when it was still looping. -/
def sendvRun : List (List Nat) → List (Option Nat) → List Nat × Bool
  | _, [] => ([], false)
  | iov, Option.none :: rest => sendvRun iov rest
  | iov, Option.some k :: rest =>
    let sent := min k (totalLen iov)
    if sent = totalLen iov then (flattenIov iov, true)
    else
      let r := sendvRun (advanceIov iov sent) rest
      ((flattenIov iov).take sent ++ r.1, r.2)

/-- `strchr(buffer, target)` over bytes for a non-NUL target: index of the
first occurrence, scanning no further than the first NUL. -/
def strchrIdx (target : Nat) : List Nat → Option Nat
  | [] => none
  | b :: rest =>
    if b = target then some 0
    else if b = 0 then none
    else (strchrIdx target rest).map (fun i => i + 1)

/-- C `isspace` on a byte. -/
def isSpaceByte (b : Nat) : Bool :=
  if b = 32 ∨ (9 ≤ b ∧ b ≤ 13) then true else false

/-- ASCII decimal digit test on a byte. -/
def isDigitByte (b : Nat) : Bool :=
  if 48 ≤ b ∧ b ≤ 57 then true else false

/-- Value of a run of ASCII digits. -/
def digitsVal (ds : List Nat) : Nat :=
  ds.foldl (fun acc d => acc * 10 + (d - 48)) 0

/-- `strtoul(start, &end, 10)` as used on the VALUE header fields: skip
leading whitespace, consume a run of decimal digits, and report the value
together with the number of bytes consumed; zero bytes consumed models
`end == start`, the failure check of the caller.  The header fields are
unsigned decimal, so the sign handling and ULONG_MAX clamping of strtoul
are not reachable and are left out. -/
def strtoulBytes (bs : List Nat) : Nat × Nat :=
  let ws := (bs.takeWhile isSpaceByte).length
  let ds := (bs.drop ws).takeWhile isDigitByte
  if ds.length = 0 then (0, 0) else (digitsVal ds, ws + ds.length)

/-- `parse_value_line` (libmemc.c:621-642) on the bytes following the
`"VALUE "` marker: skip to the first space (past the echoed key), parse
the flags field, skip one byte, parse the byte-count field, require an
immediate CRLF, and return (flags as uint32, byte count, offset of the
payload within `header`).  `none` is the -1 protocol-error return. -/
def parse_value_line (header : List Nat) : Option (Nat × Nat × Nat) :=
  match strchrIdx 32 header with
  | none => none
  | some sp =>
    let start1 := sp + 1
    let r1 := strtoulBytes (header.drop start1)
    if r1.2 = 0 then none
    else
      let start2 := start1 + r1.2 + 1
      let r2 := strtoulBytes (header.drop start2)
      if r2.2 = 0 then none
      else
        let endPos := start2 + r2.2
        if (strBytes "\r\n").isPrefixOf (header.drop endPos) then
          some (r1.1 % 2 ^ 32, r2.1, endPos + 2)
        else none

/-- Return behaviour of a call into the C code: an `int` return value, or
the `abort()` call that ends the process. -/
inductive CRet where
  | ret (v : Int)
  | aborted
deriving DecidableEq, Repr

/-- `textual_get` (libmemc.c:644-700) from the point where the response
sits in the scratch buffer: `resp` is the buffer content once
`server_receive` (and the follow-up exact read the code issues when fewer
than byte-count + 7 bytes past the header were buffered) has completed, so
the short-read handling is absorbed into `resp`.  A buffer starting with
"VALUE " is parsed; parse failure records "Protocol error", disconnects
and returns -1.  On success the Item buffer is replaced only when the
byte count exceeds the current `item.size`, and `memcpy(item->data,
result, item->size)` copies `item.size` bytes from the payload position.
A buffer starting with "END" returns -1 with nothing else done.  Any
other content reaches `abort()`.  Allocation is modelled as succeeding. -/
def textual_get (c : Conn) (item : Item) (resp : List Nat) :
    Conn × Item × CRet :=
  if (strBytes "VALUE ").isPrefixOf resp then
    match parse_value_line (resp.drop 6) with
    | none => (failConn "Protocol error", item, CRet.ret (-1))
    | some (_flag, elemsize, dataOff) =>
      let scratch := resp.drop (6 + dataOff)
      if elemsize > item.size then
        (c, { item with size := elemsize, data := some (scratch.take elemsize) },
          CRet.ret 0)
      else
        (c, { item with data := some (scratch.take item.size) }, CRet.ret 0)
  else if (strBytes "END").isPrefixOf resp then
    (c, item, CRet.ret (-1))
  else
    (c, item, CRet.aborted)

/-- Result of the `textual_store` response loop: an `int` return, or
still looping when the schedule ran out. -/
inductive LoopRet where
  | ret (v : Int)
  | pending
deriving DecidableEq, Repr

/-- The response loop of `textual_store` (libmemc.c:726-760): receive into
the scratch buffer (capacity `cap`); a hard error records the message,
disconnects and returns -1; EINTR retries; a zero-byte read means the peer
closed the connection ("Lost contact with server", disconnect, -1); once a
carriage return is present, a buffer starting with "STORED\r\n" returns 0
and one starting with "NOT_STORED\r\n" records "Item NOT stored" and
returns -1 without disconnecting; filling the buffer without a decision is
"Out of sync with server...", disconnect, -1. -/
def textual_store_recv (cap : Nat) : Conn → List Nat → List IOEv → Conn × LoopRet
  | c, _, [] => (c, LoopRet.pending)
  | c, buf, ev :: evs =>
    match ev with
    | IOEv.err m =>
      (failConn ("Failed to receive data from server: " ++ m), LoopRet.ret (-1))
    | IOEv.eintr =>
      if buf.length = cap then
        (failConn "Out of sync with server...", LoopRet.ret (-1))
      else textual_store_recv cap c buf evs
    | IOEv.bytes [] =>
      (failConn "Lost contact with server", LoopRet.ret (-1))
    | IOEv.bytes bs =>
      let buf2 := buf ++ bs
      if buf2.contains 13 ∧ (strBytes "STORED\r\n").isPrefixOf buf2 then
        (c, LoopRet.ret 0)
      else if buf2.contains 13 ∧ (strBytes "NOT_STORED\r\n").isPrefixOf buf2 then
        ({ c with errmsg := some "Item NOT stored" }, LoopRet.ret (-1))
      else if buf2.length = cap then
        (failConn "Out of sync with server...", LoopRet.ret (-1))
      else textual_store_recv cap c buf2 evs

-- ===== Theorems =====

lemma hashLoop_congr (bs1 : List Nat) :
    ∀ (ret : Nat) (bs2 : List Nat),
      bs1.takeWhile (fun b => b != 0) = bs2.takeWhile (fun b => b != 0) →
      hashLoop ret bs1 = hashLoop ret bs2 := by
  induction bs1 with
  | nil =>
    intro ret bs2 h
    cases bs2 with
    | nil => rfl
    | cons b t =>
      simp only [List.takeWhile_nil, List.takeWhile_cons] at h
      by_cases hb : b = 0
      · simp [hashLoop, hb]
      · simp [hb] at h
  | cons b t ih =>
    intro ret bs2 h
    by_cases hb : b = 0
    · subst hb
      simp only [List.takeWhile_cons] at h
      simp only [bne_self_eq_false, Bool.false_eq_true, if_false] at h
      have hL : hashLoop ret (0 :: t) = ret := by simp [hashLoop]
      rw [hL]
      cases bs2 with
      | nil => rfl
      | cons b2 t2 =>
        simp only [List.takeWhile_cons] at h
        by_cases hb2 : b2 = 0
        · simp [hashLoop, hb2]
        · simp [hb2] at h
    · cases bs2 with
      | nil =>
        simp only [List.takeWhile_cons, List.takeWhile_nil] at h
        simp [hb] at h
      | cons b2 t2 =>
        simp only [List.takeWhile_cons] at h
        by_cases hb2 : b2 = 0
        · simp [hb, hb2] at h
        · simp only [bne_iff_ne, ne_eq, hb, not_false_eq_true, if_pos,
            hb2, List.cons.injEq] at h
          obtain ⟨hbe, ht⟩ := h
          subst hbe
          simp only [hashLoop, hb, if_false]
          exact ih _ _ ht

lemma headD_congr (bs1 bs2 : List Nat)
    (h : bs1.takeWhile (fun b => b != 0) = bs2.takeWhile (fun b => b != 0)) :
    bs1.headD 0 = bs2.headD 0 := by
  cases bs1 with
  | nil =>
    cases bs2 with
    | nil => rfl
    | cons b2 t2 =>
      simp only [List.takeWhile_nil, List.takeWhile_cons] at h
      by_cases hb2 : b2 = 0
      · simp [hb2]
      · simp [hb2] at h
  | cons b t =>
    cases bs2 with
    | nil =>
      simp only [List.takeWhile_cons, List.takeWhile_nil] at h
      by_cases hb : b = 0
      · simp [hb]
      · simp [hb] at h
    | cons b2 t2 =>
      simp only [List.takeWhile_cons] at h
      by_cases hb : b = 0
      · subst hb
        simp only [bne_self_eq_false, Bool.false_eq_true, if_false] at h
        by_cases hb2 : b2 = 0
        · simp [hb2]
        · simp [hb2] at h
      · by_cases hb2 : b2 = 0
        · simp [hb, hb2] at h
        · simp only [bne_iff_ne, ne_eq, hb, not_false_eq_true, if_pos,
            hb2, List.cons.injEq] at h
          simp [h.1]

/-- C3: server selection is a pure function of the key and the server
count, hence repeated calls agree; with exactly one registered server every
key routes to it (index 0); with zero servers selection yields no server;
and any returned index designates one of the registered servers. -/
theorem get_server_routing (key : Option (List Nat)) :
    (∀ n : Nat, get_server n key = get_server n key) ∧
    get_server 1 key = some 0 ∧
    get_server 0 key = none ∧
    (∀ n i : Nat, get_server n key = some i → i < n) := by
  refine ⟨fun _ => rfl, ?_, ?_, ?_⟩
  · simp [get_server]
  · simp [get_server]
  · intro n i h
    unfold get_server at h
    split at h
    next h1 =>
      simp only [Option.some.injEq] at h
      omega
    next h1 =>
      split at h
      next h0 =>
        simp only [Option.some.injEq] at h
        subst h
        exact Nat.mod_lt _ h0
      next h0 => simp at h

/-- Witness for C3 at a concrete key and concrete server counts. -/
theorem get_server_routing_witness :
    get_server 1 (some (strBytes "hello")) = some 0 ∧
    get_server 0 (some (strBytes "hello")) = none := by
  exact ⟨(get_server_routing (some (strBytes "hello"))).2.1,
         (get_server_routing (some (strBytes "hello"))).2.2.1⟩

/-- C9: routing reads the key as a NUL-terminated C string: two keys whose
bytes agree up to the first NUL route identically for every server count
(bytes after the NUL are never read), the declared `keylen` of an Item does
not influence routing, a NULL key pointer hashes to 0, and thus routes to
server index 0 whenever at least one server is registered. -/
theorem simplehash_nul_semantics (bs1 bs2 : List Nat) (n : Nat)
    (h : bs1.takeWhile (fun b => b != 0) = bs2.takeWhile (fun b => b != 0)) :
    get_server n (some bs1) = get_server n (some bs2) ∧
    (∀ (it : Item) (l : Nat),
      get_server_for_item n { it with keylen := l } = get_server_for_item n it) ∧
    simplehash none = 0 ∧
    (1 ≤ n → get_server n none = some 0) := by
  have hh : simplehash (some bs1) = simplehash (some bs2) := by
    show hashLoop (schar32 (bs1.headD 0)) bs1 = hashLoop (schar32 (bs2.headD 0)) bs2
    rw [headD_congr bs1 bs2 h]
    exact hashLoop_congr bs1 _ bs2 h
  refine ⟨?_, fun it l => rfl, rfl, ?_⟩
  · unfold get_server
    rw [hh]
  · intro hn
    unfold get_server
    by_cases h1 : n = 1
    · simp [h1]
    · have h0 : 0 < n := hn
      rw [if_neg h1, if_pos h0]
      simp [simplehash]

/-- Witness for C9: two keys that differ only after the terminating NUL
(and in declared length) route to the same server among 7. -/
theorem simplehash_nul_semantics_witness :
    ((strBytes "abc" ++ [0, 1, 2]).takeWhile (fun b => b != 0) =
      (strBytes "abc" ++ [0, 9]).takeWhile (fun b => b != 0)) ∧
    (get_server 7 (some (strBytes "abc" ++ [0, 1, 2])) =
      get_server 7 (some (strBytes "abc" ++ [0, 9])) ∧
     simplehash none = 0 ∧
     get_server 7 none = some 0) := by
  have base := simplehash_nul_semantics (strBytes "abc" ++ [0, 1, 2])
    (strBytes "abc" ++ [0, 9]) 7 (by decide)
  exact ⟨by decide, base.1, base.2.2.1, base.2.2.2 (by decide)⟩

lemma swap64_formula (x : Nat) (hx : x < 2 ^ 64) :
    swap64 x =
      x % 256 * 2 ^ 56 + x / 2 ^ 8 % 256 * 2 ^ 48 + x / 2 ^ 16 % 256 * 2 ^ 40 +
      x / 2 ^ 24 % 256 * 2 ^ 32 + x / 2 ^ 32 % 256 * 2 ^ 24 +
      x / 2 ^ 40 % 256 * 2 ^ 16 + x / 2 ^ 48 % 256 * 2 ^ 8 + x / 2 ^ 56 % 256 := by
  simp only [swap64, swap64Loop, Nat.div_div_eq_div_mul]
  norm_num
  omega

lemma sum_bytes_spec (b0 b1 b2 b3 b4 b5 b6 b7 : Nat)
    (h0 : b0 < 256) (h1 : b1 < 256) (h2 : b2 < 256) (h3 : b3 < 256)
    (h4 : b4 < 256) (h5 : b5 < 256) (h6 : b6 < 256) (h7 : b7 < 256) :
    (b0 * 2 ^ 56 + b1 * 2 ^ 48 + b2 * 2 ^ 40 + b3 * 2 ^ 32 +
      b4 * 2 ^ 24 + b5 * 2 ^ 16 + b6 * 2 ^ 8 + b7) % 256 = b7 ∧
    (b0 * 2 ^ 56 + b1 * 2 ^ 48 + b2 * 2 ^ 40 + b3 * 2 ^ 32 +
      b4 * 2 ^ 24 + b5 * 2 ^ 16 + b6 * 2 ^ 8 + b7) / 2 ^ 8 % 256 = b6 ∧
    (b0 * 2 ^ 56 + b1 * 2 ^ 48 + b2 * 2 ^ 40 + b3 * 2 ^ 32 +
      b4 * 2 ^ 24 + b5 * 2 ^ 16 + b6 * 2 ^ 8 + b7) / 2 ^ 16 % 256 = b5 ∧
    (b0 * 2 ^ 56 + b1 * 2 ^ 48 + b2 * 2 ^ 40 + b3 * 2 ^ 32 +
      b4 * 2 ^ 24 + b5 * 2 ^ 16 + b6 * 2 ^ 8 + b7) / 2 ^ 24 % 256 = b4 ∧
    (b0 * 2 ^ 56 + b1 * 2 ^ 48 + b2 * 2 ^ 40 + b3 * 2 ^ 32 +
      b4 * 2 ^ 24 + b5 * 2 ^ 16 + b6 * 2 ^ 8 + b7) / 2 ^ 32 % 256 = b3 ∧
    (b0 * 2 ^ 56 + b1 * 2 ^ 48 + b2 * 2 ^ 40 + b3 * 2 ^ 32 +
      b4 * 2 ^ 24 + b5 * 2 ^ 16 + b6 * 2 ^ 8 + b7) / 2 ^ 40 % 256 = b2 ∧
    (b0 * 2 ^ 56 + b1 * 2 ^ 48 + b2 * 2 ^ 40 + b3 * 2 ^ 32 +
      b4 * 2 ^ 24 + b5 * 2 ^ 16 + b6 * 2 ^ 8 + b7) / 2 ^ 48 % 256 = b1 ∧
    (b0 * 2 ^ 56 + b1 * 2 ^ 48 + b2 * 2 ^ 40 + b3 * 2 ^ 32 +
      b4 * 2 ^ 24 + b5 * 2 ^ 16 + b6 * 2 ^ 8 + b7) / 2 ^ 56 % 256 = b0 ∧
    b0 * 2 ^ 56 + b1 * 2 ^ 48 + b2 * 2 ^ 40 + b3 * 2 ^ 32 +
      b4 * 2 ^ 24 + b5 * 2 ^ 16 + b6 * 2 ^ 8 + b7 < 2 ^ 64 := by
  omega

/-- C4: on the little-endian host, `swap64` is the exact eight-byte
reversal of its 64-bit argument (not a 32-bit swap), hence an involution,
and the very same function is what `binary_store` applies to the cas field
of the request header and what the `binary_get` response path applies to
the cas field of the response header. -/
theorem swap64_wire_token (x : Nat) (hx : x < 2 ^ 64) :
    bytesLE (swap64 x) = (bytesLE x).reverse ∧
    swap64 (swap64 x) = x ∧
    (∀ (cmd : StoreCommand) (item : Item),
      (binary_store_request cmd item).cas = swap64 (item.cas_id % 2 ^ 64)) ∧
    (∀ (item : Item) (extlen bodylen cas : Nat) (payload : List Nat),
      (binary_get_success item extlen bodylen cas payload).cas_id =
        swap64 (cas % 2 ^ 64)) := by
  have spec := sum_bytes_spec (x % 256) (x / 2 ^ 8 % 256) (x / 2 ^ 16 % 256)
    (x / 2 ^ 24 % 256) (x / 2 ^ 32 % 256) (x / 2 ^ 40 % 256) (x / 2 ^ 48 % 256)
    (x / 2 ^ 56 % 256)
    (Nat.mod_lt _ (by norm_num)) (Nat.mod_lt _ (by norm_num))
    (Nat.mod_lt _ (by norm_num)) (Nat.mod_lt _ (by norm_num))
    (Nat.mod_lt _ (by norm_num)) (Nat.mod_lt _ (by norm_num))
    (Nat.mod_lt _ (by norm_num)) (Nat.mod_lt _ (by norm_num))
  refine ⟨?_, ?_, fun cmd item => rfl, ?_⟩
  · rw [bytesLE, bytesLE, swap64_formula x hx]
    simp only [List.reverse_cons, List.reverse_nil, List.nil_append,
      List.cons_append]
    rw [spec.1, spec.2.1, spec.2.2.1, spec.2.2.2.1, spec.2.2.2.2.1,
      spec.2.2.2.2.2.1, spec.2.2.2.2.2.2.1, spec.2.2.2.2.2.2.2.1]
  · rw [swap64_formula x hx]
    rw [swap64_formula _ spec.2.2.2.2.2.2.2.2]
    rw [spec.1, spec.2.1, spec.2.2.1, spec.2.2.2.1, spec.2.2.2.2.1,
      spec.2.2.2.2.2.1, spec.2.2.2.2.2.2.1, spec.2.2.2.2.2.2.2.1]
    clear spec
    omega
  · intro item extlen bodylen cas payload
    unfold binary_get_success
    cases item.data with
    | none => rfl
    | some d =>
      by_cases hgt : bodylen - extlen > item.size
      · simp [hgt]
      · simp [hgt]

/-- Witness for C4 at a concrete 64-bit token. -/
theorem swap64_wire_token_witness :
    (0x0011223344556677 < 2 ^ 64) ∧
    (bytesLE (swap64 0x0011223344556677) = (bytesLE 0x0011223344556677).reverse ∧
      swap64 (swap64 0x0011223344556677) = 0x0011223344556677) := by
  refine ⟨by norm_num, ?_, ?_⟩
  · exact (swap64_wire_token 0x0011223344556677 (by norm_num)).1
  · exact (swap64_wire_token 0x0011223344556677 (by norm_num)).2.1

/-- C7: decoding a binary store response succeeds exactly when the status
field is 0 and the body is empty; a success status with a non-empty body is
a protocol error that records a message and disconnects; a non-success
status drains and discards the advertised body length and reports
failure. -/
theorem binary_store_decode_status (c : Conn) (status bodylen : Nat)
    (allocOk : Bool) :
    ((binary_store_decode c status bodylen allocOk).ret = 0 ↔
      status = 0 ∧ bodylen = 0) ∧
    (status = 0 → bodylen ≠ 0 →
      (binary_store_decode c status bodylen allocOk).conn.connected = false ∧
      (binary_store_decode c status bodylen allocOk).conn.errmsg.isSome = true ∧
      (binary_store_decode c status bodylen allocOk).ret = -1) ∧
    (status ≠ 0 → allocOk = true →
      (binary_store_decode c status bodylen allocOk).drained = ntohl bodylen ∧
      (binary_store_decode c status bodylen allocOk).ret = -1) := by
  unfold binary_store_decode
  refine ⟨?_, ?_, ?_⟩
  · by_cases hs : status = 0
    · by_cases hb : bodylen = 0
      · simp [hs, hb]
      · simp [hs, hb, failConn]
    · by_cases hb : bodylen = 0
      · simp [hs, hb]
      · cases allocOk <;> simp [hs, hb]
  · intro hs hb
    simp [hs, hb, failConn]
  · intro hs ha
    subst ha
    by_cases hb : bodylen = 0
    · simp [hs, hb, ntohl, htonl]
    · simp [hs, hb]

/-- Witness for C7: a failure status of 1 with a 5-byte body drains 5
bytes (after byte-order conversion of the field) and reports failure. -/
theorem binary_store_decode_status_witness :
    ((1 : Nat) ≠ 0 ∧ true = true) ∧
    ((binary_store_decode conn0 1 (htonl 5) true).drained = ntohl (htonl 5) ∧
      (binary_store_decode conn0 1 (htonl 5) true).ret = -1) := by
  exact ⟨⟨by decide, rfl⟩,
    (binary_store_decode_status conn0 1 (htonl 5) true).2.2 (by decide) rfl⟩

/-- C8: for every Item and store mode, the binary store request transmits
the 4-byte flags field of the request body as 0 whatever the flags value of
the Item is, while the expiration field is taken from the Item (in network
byte order). -/
theorem binary_store_flags_zero (cmd : StoreCommand) (item : Item) (f : Nat) :
    (binary_store_request cmd { item with flags := f }).flags = 0 ∧
    (binary_store_request cmd item).expiration = htonl (item.exptime % 2 ^ 32) := by
  exact ⟨rfl, rfl⟩

lemma totalLen_flatten (iov : List (List Nat)) :
    totalLen iov = (flattenIov iov).length := by
  simp [totalLen, flattenIov]

lemma flattenIov_advance (iov : List (List Nat)) :
    ∀ k : Nat, flattenIov (advanceIov iov k) = (flattenIov iov).drop k := by
  induction iov with
  | nil => intro k; simp [advanceIov, flattenIov]
  | cons b rest ih =>
    intro k
    by_cases hb : b.length < k
    · have hk : k = b.length + (k - b.length) := by omega
      simp only [advanceIov, if_pos hb]
      show flattenIov ([] :: advanceIov rest (k - b.length)) =
        (flattenIov (b :: rest)).drop k
      have hL : flattenIov ([] :: advanceIov rest (k - b.length)) =
          flattenIov (advanceIov rest (k - b.length)) := by
        simp [flattenIov]
      rw [hL, ih (k - b.length)]
      show (flattenIov rest).drop (k - b.length) =
        (List.flatten (b :: rest)).drop k
      rw [List.flatten_cons]
      nth_rewrite 2 [hk]
      rw [List.drop_append]
      rfl
    · have hle : k ≤ b.length := by omega
      simp only [advanceIov, if_neg hb]
      show flattenIov (b.drop k :: rest) = (flattenIov (b :: rest)).drop k
      show List.flatten (b.drop k :: rest) = (List.flatten (b :: rest)).drop k
      rw [List.flatten_cons, List.flatten_cons,
        List.drop_append_of_le_length hle]

lemma sendvRun_success : ∀ (sched : List (Option Nat)) (iov : List (List Nat))
    (d : List Nat), sendvRun iov sched = (d, true) → d = flattenIov iov := by
  intro sched
  induction sched with
  | nil =>
    intro iov d h
    simp [sendvRun] at h
  | cons ev rest ih =>
    intro iov d h
    cases ev with
    | none => exact ih iov d h
    | some k =>
      rw [sendvRun] at h
      by_cases hs : min k (totalLen iov) = totalLen iov
      · rw [if_pos hs] at h
        rw [Prod.mk.injEq] at h
        exact h.1.symm
      · rw [if_neg hs] at h
        rcases hres : sendvRun (advanceIov iov (min k (totalLen iov))) rest
          with ⟨r1, r2⟩
        rw [hres, Prod.mk.injEq] at h
        have hr2 : r2 = true := h.2
        have hr1 : r1 = flattenIov (advanceIov iov (min k (totalLen iov))) := by
          apply ih
          rw [hres, hr2]
        rw [← h.1, hr1, flattenIov_advance]
        exact List.take_append_drop _ _

lemma sendvRun_one : ∀ (n : Nat) (iov : List (List Nat)), totalLen iov = n + 1 →
    sendvRun iov (List.replicate (n + 1) (Option.some 1)) =
      (flattenIov iov, true) := by
  intro n
  induction n with
  | zero =>
    intro iov h
    rw [List.replicate_succ, List.replicate_zero, sendvRun]
    rw [h]
    simp
  | succ m ih =>
    intro iov h
    rw [List.replicate_succ, sendvRun]
    have hmin : min 1 (totalLen iov) = 1 := by omega
    rw [hmin, if_neg (by omega)]
    have hadv : totalLen (advanceIov iov 1) = m + 1 := by
      rw [totalLen_flatten, flattenIov_advance, List.length_drop,
        ← totalLen_flatten, h]
      omega
    rw [ih (advanceIov iov 1) hadv, flattenIov_advance]
    rw [Prod.mk.injEq]
    exact ⟨List.take_append_drop _ _, rfl⟩

/-- C5: over a transport that accepts an arbitrary positive number of
bytes per call, `server_sendv` delivers the full concatenated message: a
schedule accepting exactly 1 byte per call delivers everything and returns
success; whenever the loop returns success the accepted bytes are exactly
the concatenation of the buffers; the iovec adjustment after a partial
write re-issues precisely the unsent suffix of the message; and an EINTR
outcome is a bare retry that changes nothing. -/
theorem server_sendv_partial_writes (iov : List (List Nat))
    (h : 1 ≤ totalLen iov) :
    sendvRun iov (List.replicate (totalLen iov) (Option.some 1)) =
      (flattenIov iov, true) ∧
    (∀ (sched : List (Option Nat)) (d : List Nat),
      sendvRun iov sched = (d, true) → d = flattenIov iov) ∧
    (∀ k : Nat, flattenIov (advanceIov iov k) = (flattenIov iov).drop k) ∧
    (∀ sched : List (Option Nat),
      sendvRun iov (Option.none :: sched) = sendvRun iov sched) := by
  refine ⟨?_, fun sched d hd => sendvRun_success sched iov d hd,
    fun k => flattenIov_advance iov k, fun sched => rfl⟩
  obtain ⟨m, hm⟩ : ∃ m, totalLen iov = m + 1 := ⟨totalLen iov - 1, by omega⟩
  rw [hm]
  exact sendvRun_one m iov hm

/-- Witness for C5: a three-byte message in two buffers is delivered in
full by a transport accepting one byte per call. -/
theorem server_sendv_partial_writes_witness :
    1 ≤ totalLen [[104, 105], [33]] ∧
    sendvRun [[104, 105], [33]]
      (List.replicate (totalLen [[104, 105], [33]]) (Option.some 1)) =
      (flattenIov [[104, 105], [33]], true) := by
  exact ⟨by decide, (server_sendv_partial_writes [[104, 105], [33]] (by decide)).1⟩

/-- C6: every failing return of the reliable send and receive loops — a
non-retryable transport error, or, for line-mode reads, exhausting the
buffer capacity without seeing the carriage return — leaves the connection
disconnected with an error message recorded, and the capacity-exhaustion
case fails with exactly the "Protocol error" message. -/
theorem io_failure_disconnects :
    (∀ (size : Nat) (c : Conn) (off : Nat) (evs : List IOEv),
      (server_send size c off evs).2 = LoopRes.fail →
      (server_send size c off evs).1.connected = false ∧
      (server_send size c off evs).1.errmsg.isSome = true) ∧
    (∀ (size : Nat) (line : Bool) (c : Conn) (off : Nat) (stop : Bool)
      (evs : List IOEv),
      (server_receive size line c off stop evs).2 = LoopRes.fail →
      (server_receive size line c off stop evs).1.connected = false ∧
      (server_receive size line c off stop evs).1.errmsg.isSome = true) ∧
    (∀ (size : Nat) (c : Conn) (off : Nat) (bs : List Nat) (evs : List IOEv),
      size ≤ off + bs.length → bs.contains 13 = false →
      server_receive size true c off false (IOEv.bytes bs :: evs) =
        (failConn "Protocol error", LoopRes.fail)) := by
  refine ⟨?_, ?_, ?_⟩
  · intro size c off evs
    induction evs generalizing c off with
    | nil => intro h; simp [server_send] at h
    | cons ev rest ih =>
      cases ev with
      | err m => intro h; simp [server_send, failConn]
      | eintr =>
        intro h
        rw [server_send] at h ⊢
        by_cases hc : off < size
        · rw [if_pos hc] at h ⊢; exact ih c off h
        · rw [if_neg hc] at h; simp at h
      | bytes bs =>
        intro h
        rw [server_send] at h ⊢
        by_cases hc : off + bs.length < size
        · rw [if_pos hc] at h ⊢; exact ih c (off + bs.length) h
        · rw [if_neg hc] at h; simp at h
  · intro size line c off stop evs
    induction evs generalizing c off stop with
    | nil => intro h; simp [server_receive] at h
    | cons ev rest ih =>
      cases ev with
      | err m => intro h; simp [server_receive, failConn]
      | eintr =>
        intro h
        rw [server_receive] at h ⊢
        by_cases hc : off < size ∧ stop = false
        · rw [if_pos hc] at h ⊢; exact ih c off stop h
        · rw [if_neg hc] at h ⊢
          by_cases hl : line = true ∧ stop = false
          · rw [if_pos hl]; simp [failConn]
          · rw [if_neg hl] at h; simp at h
      | bytes bs =>
        intro h
        rw [server_receive] at h ⊢
        by_cases hc : off + bs.length < size ∧
            (if line = true ∧ bs.contains 13 then true else stop) = false
        · rw [if_pos hc] at h ⊢
          exact ih c (off + bs.length) _ h
        · rw [if_neg hc] at h ⊢
          by_cases hl : line = true ∧
              (if line = true ∧ bs.contains 13 then true else stop) = false
          · rw [if_pos hl]; simp [failConn]
          · rw [if_neg hl] at h; simp at h
  · intro size c off bs evs hsz hcr
    rw [server_receive]
    have hstop : (if true = true ∧ bs.contains 13 then true else false) = false := by
      rw [hcr]
      decide
    rw [hstop]
    rw [if_neg (fun hand => absurd hand.1 (by omega : ¬off + bs.length < size))]
    rw [if_pos ⟨rfl, rfl⟩]

/-- Witness for C6: a four-byte line buffer filled with no carriage
return fails as a protocol error and disconnects. -/
theorem io_failure_disconnects_witness :
    (4 ≤ 0 + [65, 66, 67, 68].length ∧ [65, 66, 67, 68].contains 13 = false) ∧
    server_receive 4 true conn0 0 false [IOEv.bytes [65, 66, 67, 68]] =
      (failConn "Protocol error", LoopRes.fail) := by
  exact ⟨⟨by decide, by decide⟩,
    io_failure_disconnects.2.2 4 conn0 0 [65, 66, 67, 68] [] (by decide)
      (by decide)⟩

/-- C10: in non-line mode `server_receive` treats a zero-length read
(orderly peer close) as progress-free and keeps calling recv — for any
number of consecutive end-of-stream reads the loop is still running with
unchanged state, never returning — while the `textual_store` response loop
treats a zero-byte read as losing contact with the server: it records the
message, disconnects and returns -1 immediately. -/
theorem receive_exact_eof_spins :
    (∀ (m size off : Nat) (c : Conn), off < size →
      server_receive size false c off false (List.replicate m (IOEv.bytes [])) =
        (c, LoopRes.pending)) ∧
    (∀ (cap : Nat) (c : Conn) (buf : List Nat) (evs : List IOEv),
      textual_store_recv cap c buf (IOEv.bytes [] :: evs) =
        (failConn "Lost contact with server", LoopRet.ret (-1))) := by
  constructor
  · intro m
    induction m with
    | zero => intro size off c h; rfl
    | succ n ih =>
      intro size off c h
      rw [List.replicate_succ, server_receive]
      have hstop : (if false = true ∧ List.contains [] 13 then true else false)
          = false := by simp
      rw [hstop]
      simp only [List.length_nil, Nat.add_zero]
      rw [if_pos ⟨h, by trivial⟩]
      exact ih size off c h
  · intro cap c buf evs
    rfl

/-- Witness for C10: three consecutive end-of-stream reads leave the
exact-length receive loop still running with the connection untouched. -/
theorem receive_exact_eof_spins_witness :
    0 < 5 ∧
    server_receive 5 false conn0 0 false (List.replicate 3 (IOEv.bytes [])) =
      (conn0, LoopRes.pending) := by
  exact ⟨by decide, receive_exact_eof_spins.1 3 5 0 conn0 (by decide)⟩

/-- C1 counterexample: the claim that a textual fetch reports a miss as a
result distinct from a generic error is false — on the "END" response the
function returns -1, the very value it returns for a malformed VALUE
header (a protocol error), so at the return value the miss is not
distinct. -/
theorem textual_miss_not_distinct :
    (textual_get conn0 item0 (strBytes "END\r\n")).2.2 = CRet.ret (-1) ∧
    (textual_get conn0 item0 (strBytes "VALUE \r\n")).2.2 = CRet.ret (-1) := by
  exact ⟨by decide, by decide⟩

/-- C1 as amended: on a response beginning with "END" the textual fetch
returns -1 — the same return value as a protocol error, so the miss is not
distinct in the result — but it does not mutate the Item's size or data
fields, records no error message, and leaves the connection connected. -/
theorem textual_get_end_no_mutation (c : Conn) (item : Item) (resp : List Nat)
    (h1 : (strBytes "END").isPrefixOf resp = true)
    (h2 : (strBytes "VALUE ").isPrefixOf resp = false) :
    textual_get c item resp = (c, item, CRet.ret (-1)) := by
  simp [textual_get, h1, h2]

/-- Witness for C1 on the concrete response "END\r\n". -/
theorem textual_get_end_no_mutation_witness :
    ((strBytes "END").isPrefixOf (strBytes "END\r\n") = true ∧
      (strBytes "VALUE ").isPrefixOf (strBytes "END\r\n") = false) ∧
    textual_get conn0 item0 (strBytes "END\r\n") = (conn0, item0, CRet.ret (-1)) := by
  exact ⟨⟨by decide, by decide⟩,
    textual_get_end_no_mutation conn0 item0 (strBytes "END\r\n") (by decide)
      (by decide)⟩

/-- C2 at the failing input: fetching a 5-byte value into an Item whose
buffer capacity is 10 copies 10 bytes — the 5 payload bytes plus the
trailing "\r\nEND" bytes of the scratch buffer — and leaves `size` at 10,
although the response carried only 5 valid bytes; the claim that exactly
byte-count bytes are copied and that `size` ends up equal to the number of
valid bytes does not hold on this path. -/
theorem textual_get_reuse_copies_capacity_bytes :
    (textual_get conn0
      { item0 with size := 10, data := some (List.replicate 10 0) }
      (strBytes "VALUE k 0 5\r\nhello\r\nEND\r\n")).2.1.size = 10 ∧
    (textual_get conn0
      { item0 with size := 10, data := some (List.replicate 10 0) }
      (strBytes "VALUE k 0 5\r\nhello\r\nEND\r\n")).2.1.data =
      some (strBytes "hello\r\nEND") ∧
    (textual_get conn0
      { item0 with size := 10, data := some (List.replicate 10 0) }
      (strBytes "VALUE k 0 5\r\nhello\r\nEND\r\n")).2.2 = CRet.ret 0 := by
  exact ⟨by decide, by decide, by decide⟩
